import Mathlib

/-!
Shallow embedding of the registry-reconciliation logic of the mswarriors
analysis scripts, together with proofs of the specified properties.

Conventions of the embedding:
* A pandas dataframe row becomes a Lean structure; a dataframe becomes a
  `List` of rows kept in row order.
* Calendar dates (pandas `Timestamp`, date-only) are encoded as `Nat` in
  `yyyymmdd` form, so chronological order is numeric order.
* A nullable column value (`NaN` / `NaT` / `None`) is an `Option`.
* Python strings are modelled through `List Char` where the reasoning
  needs the character structure (split / strip), with `String` wrappers.
-/

namespace MSW

/-- One row of a registry export after normalisation: the fields the
date-filtering and sponsor-aggregation code paths read.  `registration_date`
is the parsed primary date column (`NaT` becomes `none`), encoded `yyyymmdd`. -/
structure TrialRecord where
  sponsor : Option String
  registration_date : Option Nat
  deriving DecidableEq, Repr

/-- The boolean mask of `load_and_filter_ictrp_data` (analyze_ictrp_2020_2025.py,
lines 48-54) and `load_and_filter_ctis_data` (analyze_ctis_2020_2025.py, lines
50-56): `(dt >= START) & (dt <= END) & dt.notna()`.  A `NaT` date compares
false with any bound, so the `notna` conjunct is the `none` case here. -/
def dateInRange (lo hi : Nat) (r : TrialRecord) : Bool :=
  match r.registration_date with
  | some d => decide (lo ≤ d) && decide (d ≤ hi)
  | none => false

/-- `filtered_df = df[mask].copy()`: the rows of `df` whose mask bit is set,
in row order (boolean-mask indexing preserves order and drops the rest). -/
def filter_by_date (records : List TrialRecord) (lo hi : Nat) : List TrialRecord :=
  records.filter (dateInRange lo hi)

/-- The filtering step as a call acting on the caller state: the source
computes a mask over `df` and materialises `df[mask].copy()`; nothing is
assigned back into `df`, so the state after the call is the state before.
First component: the returned fresh sequence; second: the caller collection
as the call leaves it. -/
def filter_by_date_call (df : List TrialRecord) (lo hi : Nat) :
    List TrialRecord × List TrialRecord :=
  (filter_by_date df lo hi, df)

/-- The dates that are present in a collection (the non-`NaT` entries of the
parsed date column), in row order. -/
def presentDates (records : List TrialRecord) : List Nat :=
  records.filterMap (fun r => r.registration_date)

/-! ### Python `str.split` / `str.strip`, modelled on `List Char`

The geographic-chart code (`create_geographic_distribution_chart`,
analyze_clinicaltrials_2020_2025.py lines 367-372, and
`create_combined_geographic_chart`, create_cross_registry_charts_2020_2025.py
lines 187-200) runs `[c.strip() for c in s.split(delim)]` with a one-character
delimiter.  Python `s.split(d)` with an explicit separator returns one piece
per gap, keeping empty pieces, and `"".split(d) == [""]`. -/

/-- Python `s.split(d)` for a single-character delimiter `d`:
`splitOnChar d cs` cuts `cs` at every occurrence of `d`; empty pieces are
kept and the empty input yields one empty piece. -/
def splitOnChar (d : Char) : List Char → List (List Char)
  | [] => [[]]
  | c :: cs =>
    if c = d then [] :: splitOnChar d cs
    else
      match splitOnChar d cs with
      | [] => [[c]]
      | p :: ps => (c :: p) :: ps

/-- Python `str.strip()`: remove leading and trailing whitespace characters. -/
def trimChars (cs : List Char) : List Char :=
  ((cs.dropWhile Char.isWhitespace).reverse.dropWhile Char.isWhitespace).reverse

/-- The multi-valued-cell splitter of the chart scripts:
`[c.strip() for c in s.split(delim)]` — split on the registry-specific
delimiter, strip each piece.  (The source keeps every stripped piece; it has
no emptiness filter.) -/
def split_multivalued (s : String) (d : Char) : List String :=
  (splitOnChar d s.toList).map (fun cs => String.mk (trimChars cs))

/-! ### pandas `Series.value_counts`

`value_counts()` factorises the column through a hash table — which lists the
distinct keys in order of first appearance — pairs each key with its number of
occurrences, and stable-sorts the pairs by count in descending order (so keys
with equal counts stay in first-appearance order).  `firstSeen` is the
factorisation order, `sortDesc` the stable descending sort (modelled as a
stable insertion sort), `valueCounts` their composition. -/

/-- The distinct keys of a column in order of first appearance: the head,
then the distinct keys of the tail other than the head. -/
def firstSeen : List String → List String
  | [] => []
  | x :: xs => x :: (firstSeen xs).filter (fun y => decide (y ≠ x))

/-- Each distinct key paired with its occurrence count, keys in
first-appearance order (the unsorted content of `value_counts`). -/
def firstSeenCounts (l : List String) : List (String × Nat) :=
  (firstSeen l).map (fun k => (k, l.count k))

/-- Insert a pair into a count-descending list, before the first entry whose
count is less than or equal to the inserted count: the insertion step of the
stable descending sort. -/
def insertDesc (x : String × Nat) : List (String × Nat) → List (String × Nat)
  | [] => [x]
  | y :: ys => if y.2 ≤ x.2 then x :: y :: ys else y :: insertDesc x ys

/-- Stable sort by count, descending (`sort_values(ascending=False)` with a
stable kind, as `value_counts` performs). -/
def sortDesc : List (String × Nat) → List (String × Nat)
  | [] => []
  | x :: xs => insertDesc x (sortDesc xs)

/-- pandas `Series.value_counts()` on a string column with no missing
entries: (key, count) pairs, count-descending, ties in first-seen order. -/
def valueCounts (l : List String) : List (String × Nat) :=
  sortDesc (firstSeenCounts l)

/-- The sponsor key a record contributes in `clean_sponsor_data`
(analyze_trials.py, lines 85-93): `fillna('Unknown')` then `.str.strip()` —
an absent sponsor becomes the literal string Unknown, a present one is
stripped of surrounding whitespace. -/
def cleanSponsorKey (r : TrialRecord) : String :=
  match r.sponsor with
  | none => "Unknown"
  | some s => String.mk (trimChars s.toList)

/-- The sponsor aggregation of `clean_sponsor_data` /
`analyze_top_sponsors` (analyze_trials.py): `value_counts` of the
filled-and-stripped sponsor column. -/
def clean_sponsor_counts (records : List TrialRecord) : List (String × Nat) :=
  valueCounts (records.map cleanSponsorKey)

/-- The sponsor aggregation of `analyze_ictrp_sponsors_2020`
(analyze_ictrp_2020_2025.py, lines 75-88): a bare
`df['Primary_sponsor'].value_counts()`, whose default `dropna=True` discards
the rows with an absent sponsor before counting. -/
def ictrp_sponsor_counts (records : List TrialRecord) : List (String × Nat) :=
  valueCounts (records.filterMap (fun r => r.sponsor))

/-- Sum of the bucket counts of an aggregation result. -/
def sumCounts (l : List (String × Nat)) : Nat :=
  (l.map (fun p => p.2)).sum

/-! ### Permissive date parsing at load time

`df['date_registration_dt'] = pd.to_datetime(df['Date_registration'],
errors='coerce')` (analyze_ictrp_2020_2025.py line 41; the same call shape
at analyze_ctis_2020_2025.py line 43 and
analyze_clinicaltrials_2020_2025.py line 41): a parsed-date column is added
next to the raw one, every row is kept, and an unparsable entry coerces to
`NaT` instead of raising.  The parser is modelled on the ISO `yyyy-mm-dd`
shape the exports carry; any string not of that shape coerces to `none`. -/

/-- Read a nonempty all-digit character list as a number; anything else is
not a number. -/
def digitsToNat (cs : List Char) : Option Nat :=
  if cs = [] then none
  else if cs.all Char.isDigit then
    some (cs.foldl (fun n c => n * 10 + (c.toNat - 48)) 0)
  else none

/-- `pd.to_datetime(s, errors='coerce')` on a date-only column: an ISO
`yyyy-mm-dd` string becomes the `yyyymmdd` encoding, anything unparsable
becomes `none` (NaT) — never an error. -/
def parseDate (s : String) : Option Nat :=
  match (splitOnChar '-' s.toList).map digitsToNat with
  | [some y, some m, some d] =>
    if 1 ≤ m && m ≤ 12 && 1 ≤ d && d ≤ 31 then some (y * 10000 + m * 100 + d)
    else none
  | _ => none

/-- One raw row of a registry export as read from the file: the primary date
column as text, plus the row identifier standing for the other columns. -/
structure RawRow where
  trial_id : String
  date_str : String
  deriving DecidableEq, Repr

/-- A row after the load step added the parsed-date column: the raw row is
kept whole and the parsed date sits beside it. -/
structure LoadedRow where
  raw : RawRow
  registration_date : Option Nat
  deriving DecidableEq, Repr

/-- The date-parsing step of the loaders: add the `errors='coerce'`-parsed
date column to every row, keeping every row in place. -/
def parse_dates (rows : List RawRow) : List LoadedRow :=
  rows.map (fun r => { raw := r, registration_date := parseDate r.date_str })

/-! ### The paginated fetch loop (`fetch_all_ms_studies`,
fetch_clinicaltrials_data.py lines 85-116)

The loop keeps an accumulator and a page token; each iteration calls
`fetch_studies_page(page_token)` inside a `try`, extends the accumulator with
the page's studies, and follows `nextPageToken`; a falsy token (absent or
empty string) breaks the loop, and the sole `except` clause prints and
breaks — no retry — so a failure returns the studies accumulated so far.
The HTTP call is abstracted as a function from the token to either an error
or a page; the `while True` is run on explicit fuel. -/

/-- One JSON page of the studies endpoint: its `studies` array and its
optional `nextPageToken`. -/
structure FetchPage (α : Type) where
  studies : List α
  nextPageToken : Option String
  deriving Repr

/-- The body of the `while True` loop of `fetch_all_ms_studies`: state is
(accumulated studies, current page token); `f` is `fetch_studies_page`. -/
def fetch_loop {α : Type} (f : Option String → Except String (FetchPage α)) :
    Nat → List α → Option String → List α
  | 0, acc, _ => acc
  | fuel + 1, acc, tok =>
    match f tok with
    | Except.error _ => acc
    | Except.ok page =>
      match page.nextPageToken with
      | none => acc ++ page.studies
      | some t =>
        if t = "" then acc ++ page.studies
        else fetch_loop f fuel (acc ++ page.studies) (some t)

/-- `fetch_all_ms_studies`: run the loop from an empty accumulator and no
page token (the first request carries no `pageToken`). -/
def fetch_all_ms_studies {α : Type} (f : Option String → Except String (FetchPage α))
    (fuel : Nat) : List α :=
  fetch_loop f fuel [] none

/-- The trace of pages the fetcher successfully serves from a starting token
before failing: `FailsAfter f tok pages` says that following the token chain
from `tok`, `f` answers the pages of `pages` in order (each handing over a
non-falsy next token) and then raises on the next request. -/
inductive FailsAfter {α : Type} (f : Option String → Except String (FetchPage α)) :
    Option String → List (List α) → Prop
  | fail (tok : Option String) (e : String) :
      f tok = Except.error e → FailsAfter f tok []
  | step (tok : Option String) (page : FetchPage α) (t : String)
      (rest : List (List α)) :
      f tok = Except.ok page → page.nextPageToken = some t → t ≠ "" →
      FailsAfter f (some t) rest → FailsAfter f tok (page.studies :: rest)

/-! ### `flatten_study_data`, location block
(fetch_clinicaltrials_data.py lines 184-196)

`locations = safe_get(study, "protocolSection", "contactsLocationsModule",
"locations")`; when that is a non-empty list the flat record takes
`LocationCountry` / `LocationCity` / `LocationState` from `locations[0]` via
`safe_get` and `TotalLocations = len(locations)`; otherwise the three fields
are `None` and `TotalLocations` is `0`.  Only the location block is embedded;
the study is the value of its `locations` path (`none` when any key on the
path is missing). -/

/-- One element of the `locations` array; `safe_get(loc, k)` on a missing
key is `None`. -/
structure StudyLocation where
  country : Option String
  city : Option String
  state : Option String
  deriving DecidableEq, Repr

/-- The location data of a raw study: the `locations` array when the nested
path exists, `none` otherwise. -/
structure RawStudy where
  locations : Option (List StudyLocation)
  deriving DecidableEq, Repr

/-- The location fields of the flattened study record. -/
structure FlatLocations where
  LocationCountry : Option String
  LocationCity : Option String
  LocationState : Option String
  TotalLocations : Nat
  deriving DecidableEq, Repr

/-- The location block of `flatten_study_data`: `if locations and
len(locations) > 0` take country/city/state from the first element and the
length, else all-`None` and `0`. -/
def flatten_study_locations (study : RawStudy) : FlatLocations :=
  match study.locations with
  | some (first :: rest) =>
    { LocationCountry := first.country
      LocationCity := first.city
      LocationState := first.state
      TotalLocations := (first :: rest).length }
  | _ =>
    { LocationCountry := none
      LocationCity := none
      LocationState := none
      TotalLocations := 0 }

/-- A well-formed ClinicalTrials.gov-shaped table of 10 rows whose primary
date column (`StudyFirstPostDate`) holds 8 parsable ISO dates and 2
unparsable entries (rows NCT04, "Not Available", and NCT08, "2021-13-40"). -/
def ctgov_rows10 : List RawRow :=
  [ { trial_id := "NCT01", date_str := "2020-01-15" }
  , { trial_id := "NCT02", date_str := "2020-06-30" }
  , { trial_id := "NCT03", date_str := "2021-02-01" }
  , { trial_id := "NCT04", date_str := "Not Available" }
  , { trial_id := "NCT05", date_str := "2022-11-09" }
  , { trial_id := "NCT06", date_str := "2023-03-21" }
  , { trial_id := "NCT07", date_str := "2023-12-31" }
  , { trial_id := "NCT08", date_str := "2021-13-40" }
  , { trial_id := "NCT09", date_str := "2024-05-05" }
  , { trial_id := "NCT10", date_str := "2025-01-02" } ]

/-- A concrete page fetcher: the first request (no token) serves studies 1
and 2 and hands over token p2; the request with token p2 raises. -/
def fetchPageW : Option String → Except String (FetchPage Nat) :=
  fun tok =>
    match tok with
    | none => Except.ok { studies := [1, 2], nextPageToken := some "p2" }
    | some _ => Except.error "connection reset"

/-! ### Helper lemmas -/

theorem splitOnChar_ne_nil (d : Char) (cs : List Char) : splitOnChar d cs ≠ [] := by
  cases cs with
  | nil => simp [splitOnChar]
  | cons c cs =>
    simp only [splitOnChar]
    split
    · simp
    · split
      · simp
      · simp

theorem length_splitOnChar (d : Char) (cs : List Char) :
    (splitOnChar d cs).length = cs.count d + 1 := by
  induction cs with
  | nil => simp [splitOnChar]
  | cons c cs ih =>
    simp only [splitOnChar]
    by_cases hc : c = d
    · simp only [if_pos hc, List.length_cons, ih, List.count_cons]
      simp [hc]
    · simp only [if_neg hc]
      rcases hsp : splitOnChar d cs with _ | ⟨p, ps⟩
      · exact absurd hsp (splitOnChar_ne_nil d cs)
      · have : (p :: ps).length = cs.count d + 1 := by rw [← hsp]; exact ih
        simp only [List.length_cons] at this ⊢
        have hcd : (c == d) = false := by simp [hc]
        simp [List.count_cons, hcd]
        omega

theorem mem_firstSeen {a : String} : ∀ {l : List String}, a ∈ firstSeen l ↔ a ∈ l := by
  intro l
  induction l with
  | nil => simp [firstSeen]
  | cons x xs ih =>
    simp only [firstSeen, List.mem_cons, List.mem_filter, ih, decide_eq_true_eq]
    constructor
    · rintro (rfl | ⟨h, _⟩)
      · exact Or.inl rfl
      · exact Or.inr h
    · rintro (rfl | h)
      · exact Or.inl rfl
      · by_cases hax : a = x
        · exact Or.inl hax
        · exact Or.inr ⟨h, hax⟩

theorem firstSeen_nodup : ∀ (l : List String), (firstSeen l).Nodup := by
  intro l
  induction l with
  | nil => simp [firstSeen]
  | cons x xs ih =>
    simp only [firstSeen, List.nodup_cons]
    refine ⟨fun hx => ?_, ih.filter _⟩
    have := (List.mem_filter.mp hx).2
    simp at this

theorem firstSeen_sublist : ∀ (l : List String), List.Sublist (firstSeen l) l := by
  intro l
  induction l with
  | nil => simp [firstSeen]
  | cons x xs ih =>
    simpa [firstSeen] using ((List.filter_sublist _).trans ih).cons₂ x

theorem firstSeen_perm_dedup (l : List String) : List.Perm (firstSeen l) l.dedup := by
  refine (List.perm_ext_iff_of_nodup (firstSeen_nodup l) l.nodup_dedup).mpr ?_
  intro a
  rw [mem_firstSeen, List.mem_dedup]

theorem sum_counts_firstSeen (l : List String) :
    ((firstSeen l).map (fun k => l.count k)).sum = l.length := by
  have h := (firstSeen_perm_dedup l).map (fun k => l.count k)
  rw [h.sum_eq]
  exact List.sum_map_count_dedup_eq_length l

theorem insertDesc_perm (x : String × Nat) (l : List (String × Nat)) :
    List.Perm (insertDesc x l) (x :: l) := by
  induction l with
  | nil => exact List.Perm.refl _
  | cons y ys ih =>
    simp only [insertDesc]
    split
    · exact List.Perm.refl _
    · exact (ih.cons y).trans (List.Perm.swap x y ys)

theorem sortDesc_perm (l : List (String × Nat)) : List.Perm (sortDesc l) l := by
  induction l with
  | nil => exact List.Perm.refl _
  | cons x xs ih => exact (insertDesc_perm x (sortDesc xs)).trans (ih.cons x)

theorem pairwise_insertDesc (x : String × Nat) {l : List (String × Nat)}
    (h : l.Pairwise (fun a b => b.2 ≤ a.2)) :
    (insertDesc x l).Pairwise (fun a b => b.2 ≤ a.2) := by
  induction l with
  | nil => simp [insertDesc]
  | cons y ys ih =>
    rcases List.pairwise_cons.mp h with ⟨hy, hys⟩
    simp only [insertDesc]
    split
    · refine List.pairwise_cons.mpr ⟨?_, h⟩
      intro z hz
      rcases List.mem_cons.mp hz with rfl | hz
      · assumption
      · exact Nat.le_trans (hy z hz) (by assumption)
    · refine List.pairwise_cons.mpr ⟨?_, ih hys⟩
      intro z hz
      have hz' := (insertDesc_perm x ys).mem_iff.mp hz
      rcases List.mem_cons.mp hz' with rfl | hz'
      · omega
      · exact hy z hz'

theorem pairwise_sortDesc (l : List (String × Nat)) :
    (sortDesc l).Pairwise (fun a b => b.2 ≤ a.2) := by
  induction l with
  | nil => simp [sortDesc]
  | cons x xs ih => exact pairwise_insertDesc x ih

theorem filter_insertDesc (x : String × Nat) (l : List (String × Nat)) (c : Nat) :
    (insertDesc x l).filter (fun p => decide (p.2 = c)) =
      if x.2 = c then x :: l.filter (fun p => decide (p.2 = c))
      else l.filter (fun p => decide (p.2 = c)) := by
  induction l with
  | nil => simp only [insertDesc, List.filter]; split <;> simp_all
  | cons y ys ih =>
    simp only [insertDesc]
    split
    · simp only [List.filter]
      split <;> split <;> simp_all
    · rename_i hxy
      by_cases hx : x.2 = c
      · have hy : ¬(y.2 = c) := by omega
        simp only [List.filter, if_pos hx] at ih ⊢
        simp [hy, ih, hx]
      · simp only [List.filter, if_neg hx] at ih ⊢
        by_cases hy : y.2 = c <;> simp [hy, ih, hx]

theorem filter_sortDesc (l : List (String × Nat)) (c : Nat) :
    (sortDesc l).filter (fun p => decide (p.2 = c)) =
      l.filter (fun p => decide (p.2 = c)) := by
  induction l with
  | nil => rfl
  | cons x xs ih =>
    simp only [sortDesc, filter_insertDesc, ih, List.filter]
    split <;> simp_all

theorem firstSeen_indexOf_lt :
    ∀ {l : List String} {k1 k2 : String}, k1 ≠ k2 →
      List.Sublist [k1, k2] (firstSeen l) → l.indexOf k1 < l.indexOf k2 := by
  intro l
  induction l with
  | nil => intro k1 k2 _ h; simp [firstSeen] at h
  | cons x xs ih =>
    intro k1 k2 hne h
    simp only [firstSeen] at h
    cases h with
    | cons _ h' =>
      have hk1 : k1 ∈ (firstSeen xs).filter (fun y => decide (y ≠ x)) :=
        h'.subset (by simp)
      have hk2 : k2 ∈ (firstSeen xs).filter (fun y => decide (y ≠ x)) :=
        h'.subset (by simp)
      have hk1x : k1 ≠ x := by simpa using (List.mem_filter.mp hk1).2
      have hk2x : k2 ≠ x := by simpa using (List.mem_filter.mp hk2).2
      have hsub : List.Sublist [k1, k2] (firstSeen xs) :=
        h'.trans (List.filter_sublist _)
      have := ih hne hsub
      rw [List.indexOf_cons_ne xs (fun hx => hk1x hx.symm),
        List.indexOf_cons_ne xs (fun hx => hk2x hx.symm)]
      omega
    | cons₂ _ h' =>
      have hk2 : k2 ∈ (firstSeen xs).filter (fun y => decide (y ≠ x)) :=
        h'.subset (by simp)
      have hk2x : k2 ≠ x := by simpa using (List.mem_filter.mp hk2).2
      rw [List.indexOf_cons_self, List.indexOf_cons_ne xs (fun hx => hk2x hx.symm)]
      exact Nat.succ_pos _

theorem foldl_min_le_init (l : List Nat) (a : Nat) : l.foldl min a ≤ a := by
  induction l generalizing a with
  | nil => exact Nat.le_refl a
  | cons b l ih =>
    exact Nat.le_trans (ih (min a b)) (Nat.min_le_left a b)

theorem foldl_min_le_mem {l : List Nat} {x : Nat} (a : Nat) (hx : x ∈ l) :
    l.foldl min a ≤ x := by
  induction l generalizing a with
  | nil => cases hx
  | cons b l ih =>
    rcases List.mem_cons.mp hx with rfl | hx
    · exact Nat.le_trans (foldl_min_le_init l (min a x)) (Nat.min_le_right a x)
    · exact ih (min a b) hx

theorem min?_le_of_mem {l : List Nat} {m x : Nat} (hm : l.min? = some m) (hx : x ∈ l) :
    m ≤ x := by
  cases l with
  | nil => cases hx
  | cons y ys =>
    rw [List.min?_cons'] at hm
    rcases List.mem_cons.mp hx with rfl | hx
    · exact (Option.some.inj hm) ▸ foldl_min_le_init ys x
    · exact (Option.some.inj hm) ▸ foldl_min_le_mem y hx

theorem init_le_foldl_max (l : List Nat) (a : Nat) : a ≤ l.foldl max a := by
  induction l generalizing a with
  | nil => exact Nat.le_refl a
  | cons b l ih =>
    exact Nat.le_trans (Nat.le_max_left a b) (ih (max a b))

theorem mem_le_foldl_max {l : List Nat} {x : Nat} (a : Nat) (hx : x ∈ l) :
    x ≤ l.foldl max a := by
  induction l generalizing a with
  | nil => cases hx
  | cons b l ih =>
    rcases List.mem_cons.mp hx with rfl | hx
    · exact Nat.le_trans (Nat.le_max_right a x) (init_le_foldl_max l (max a x))
    · exact ih (max a b) hx

theorem le_max?_of_mem {l : List Nat} {m x : Nat} (hm : l.max? = some m) (hx : x ∈ l) :
    x ≤ m := by
  cases l with
  | nil => cases hx
  | cons y ys =>
    rw [List.max?_cons'] at hm
    rcases List.mem_cons.mp hx with rfl | hx
    · exact (Option.some.inj hm) ▸ init_le_foldl_max ys x
    · exact (Option.some.inj hm) ▸ mem_le_foldl_max y hx

theorem fetch_loop_failsAfter {α : Type} (f : Option String → Except String (FetchPage α))
    {tok : Option String} {pages : List (List α)} (h : FailsAfter f tok pages) :
    ∀ (fuel : Nat) (acc : List α), pages.length < fuel →
      fetch_loop f fuel acc tok = acc ++ pages.flatten := by
  induction h with
  | fail tok e he =>
    intro fuel acc hf
    match fuel, hf with
    | fuel + 1, _ => simp [fetch_loop, he]
  | step tok page t rest hok hnext hne _ ih =>
    intro fuel acc hf
    match fuel, hf with
    | fuel + 1, hf =>
      have hrest : rest.length < fuel := by
        simpa [Nat.succ_lt_succ_iff] using hf
      simp only [fetch_loop, hok, hnext, if_neg hne, ih fuel (acc ++ page.studies) hrest]
      simp

/-! ### The claims -/

/-- Claim C2: for every collection of records and every inclusive range
`[lo, hi]`, `filter_by_date` returns exactly those records whose
`registration_date` is present and satisfies `lo ≤ d ≤ hi` (boundaries
included, multiplicity preserved, input order preserved), and every record
with an absent `registration_date` is excluded regardless of the range. -/
theorem claim_C2 (records : List TrialRecord) (lo hi : Nat) :
    List.Sublist (filter_by_date records lo hi) records
    ∧ (∀ r ∈ filter_by_date records lo hi,
        ∃ d, r.registration_date = some d ∧ lo ≤ d ∧ d ≤ hi)
    ∧ (∀ r ∈ records, (∃ d, r.registration_date = some d ∧ lo ≤ d ∧ d ≤ hi) →
        (filter_by_date records lo hi).count r = records.count r)
    ∧ (∀ r : TrialRecord, r.registration_date = none →
        r ∉ filter_by_date records lo hi) := by
  refine ⟨List.filter_sublist records, ?_, ?_, ?_⟩
  · intro r hr
    have hm := (List.mem_filter.mp hr).2
    rcases hd : r.registration_date with _ | d
    · simp [dateInRange, hd] at hm
    · refine ⟨d, rfl, ?_, ?_⟩ <;> · simp [dateInRange, hd] at hm; omega
  · rintro r _ ⟨d, hd, h1, h2⟩
    exact List.count_filter (by simp [dateInRange, hd, h1, h2])
  · intro r h hr
    have hm := (List.mem_filter.mp hr).2
    simp [dateInRange, h] at hm

/-- Claim C2 witness: on a two-record collection, the dated in-range record
is kept with its multiplicity and the undated record is excluded. -/
theorem claim_C2_witness :
    (filter_by_date [{ sponsor := some "A", registration_date := some 20200601 },
        { sponsor := some "B", registration_date := none }] 20200101 20251231).count
        { sponsor := some "A", registration_date := some 20200601 } =
      ([{ sponsor := some "A", registration_date := some 20200601 },
        { sponsor := some "B", registration_date := none }] :
          List TrialRecord).count
        { sponsor := some "A", registration_date := some 20200601 }
    ∧ ({ sponsor := some "B", registration_date := none } : TrialRecord) ∉
        filter_by_date [{ sponsor := some "A", registration_date := some 20200601 },
          { sponsor := some "B", registration_date := none }] 20200101 20251231 := by
  refine ⟨(claim_C2 _ 20200101 20251231).2.2.1 _ (by decide)
    ⟨20200601, rfl, by decide, by decide⟩, ?_⟩
  exact (claim_C2 _ 20200101 20251231).2.2.2 _ rfl

/-- Claim C6: for every collection and every pair of bounds with
`hi < lo`, `filter_by_date` returns the empty sequence (and, being a total
function, raises nothing). -/
theorem claim_C6 (records : List TrialRecord) (lo hi : Nat) (h : hi < lo) :
    filter_by_date records lo hi = [] := by
  refine List.filter_eq_nil_iff.mpr ?_
  intro r _
  rcases hd : r.registration_date with _ | d <;> simp [dateInRange, hd]
  omega

/-- Claim C6 witness: an inverted range empties a nonempty collection. -/
theorem claim_C6_witness :
    filter_by_date [{ sponsor := some "A", registration_date := some 5 }] 10 3 = [] :=
  claim_C6 _ 10 3 (by decide)

/-- Claim C9: the filtering call returns a new sequence (the mask filter of
the input) and leaves the caller collection exactly as it was — same
records, same order, same field values. -/
theorem claim_C9 (df : List TrialRecord) (lo hi : Nat) :
    (filter_by_date_call df lo hi).2 = df
    ∧ (∀ i : Nat, ((filter_by_date_call df lo hi).2)[i]? = df[i]?)
    ∧ (filter_by_date_call df lo hi).1 = filter_by_date df lo hi :=
  ⟨rfl, fun _ => rfl, rfl⟩

/-- Claim C10: `flatten_study_data` is total on the locations block and
records location data from the first location only — for a non-empty
locations list the three location fields come from its head and
`TotalLocations` is its length; for an absent or empty list the three
fields are absent and `TotalLocations` is `0`; the result never depends on
the contents of the locations after the first. -/
theorem claim_C10 (s : RawStudy) :
    (∀ loc rest, s.locations = some (loc :: rest) →
      flatten_study_locations s =
        { LocationCountry := loc.country, LocationCity := loc.city,
          LocationState := loc.state, TotalLocations := rest.length + 1 })
    ∧ (s.locations = none →
      flatten_study_locations s =
        { LocationCountry := none, LocationCity := none,
          LocationState := none, TotalLocations := 0 })
    ∧ (s.locations = some [] →
      flatten_study_locations s =
        { LocationCountry := none, LocationCity := none,
          LocationState := none, TotalLocations := 0 })
    ∧ (∀ loc (rest rest' : List StudyLocation), rest.length = rest'.length →
        flatten_study_locations { locations := some (loc :: rest) } =
          flatten_study_locations { locations := some (loc :: rest') }) := by
  obtain ⟨ls⟩ := s
  refine ⟨?_, ?_, ?_, ?_⟩
  · rintro loc rest rfl
    simp [flatten_study_locations]
  · rintro rfl
    simp [flatten_study_locations]
  · rintro rfl
    simp [flatten_study_locations]
  · intro loc rest rest' hlen
    simp [flatten_study_locations, hlen]

/-- Claim C10 witness: a two-location study flattens to the first location's
fields with total 2; an absent and an empty list flatten to the all-absent
record with total 0. -/
theorem claim_C10_witness :
    flatten_study_locations
        { locations := some
            [ { country := some "USA", city := some "Boston", state := some "MA" }
            , { country := some "France", city := none, state := none } ] } =
      { LocationCountry := some "USA", LocationCity := some "Boston",
        LocationState := some "MA", TotalLocations := 2 }
    ∧ flatten_study_locations { locations := none } =
      { LocationCountry := none, LocationCity := none,
        LocationState := none, TotalLocations := 0 }
    ∧ flatten_study_locations { locations := some [] } =
      { LocationCountry := none, LocationCity := none,
        LocationState := none, TotalLocations := 0 } := by
  refine ⟨?_, (claim_C10 { locations := none }).2.1 rfl,
    (claim_C10 { locations := some [] }).2.2.1 rfl⟩
  exact (claim_C10 _).1
    { country := some "USA", city := some "Boston", state := some "MA" }
    [ { country := some "France", city := none, state := none } ] rfl

/-- Claim C3 counterexample: the source splitter keeps empty pieces, so on
the empty string with delimiter comma it returns a one-element sequence
holding the empty string, not the empty sequence the claim asserts. -/
theorem claim_C3_counterexample :
    split_multivalued "" ',' = [""] ∧ ([""] : List String) ≠ [] := by
  exact ⟨by decide, by decide⟩

/-- Claim C3 (amended): `split_multivalued` splits on the delimiter and
strips surrounding whitespace from each piece but keeps empty pieces: the
number of pieces always equals the number of delimiter occurrences plus
one, `split_multivalued "" ','` is `[""]`, and on
`"USA, France ,  Germany"` it gives the three stripped country names. -/
theorem claim_C3 :
    split_multivalued "USA, France ,  Germany" ',' = ["USA", "France", "Germany"]
    ∧ split_multivalued "" ',' = [""]
    ∧ ∀ (s : String) (d : Char),
        (split_multivalued s d).length = s.toList.count d + 1 := by
  refine ⟨by decide, by decide, ?_⟩
  intro s d
  simp [split_multivalued, length_splitOnChar]

/-- Claim C7: the date-parsing step of load never raises — it is a total
map that keeps every row, putting `parseDate` of the raw date text beside
each row (absent exactly when unparsable); on the well-formed
ClinicalTrials.gov-shaped 10-row table `ctgov_rows10`, whose rows NCT04 and
NCT08 carry unparsable date strings, it yields 10 records of which exactly
2 have an absent `registration_date`. -/
theorem claim_C7 (rows : List RawRow) :
    (parse_dates rows).length = rows.length
    ∧ (∀ i : Nat, (parse_dates rows)[i]? =
        (rows[i]?).map (fun r => { raw := r, registration_date := parseDate r.date_str }))
    ∧ (parse_dates rows).countP (fun r => r.registration_date.isNone) =
        rows.countP (fun r => (parseDate r.date_str).isNone)
    ∧ (parse_dates ctgov_rows10).length = 10
    ∧ (parse_dates ctgov_rows10).countP (fun r => r.registration_date.isNone) = 2 := by
  refine ⟨List.length_map _ _, ?_, ?_, by decide, by decide⟩
  · intro i
    simp [parse_dates]
  · simp [parse_dates, List.countP_map]
    rfl

theorem sumCounts_sortDesc (l : List (String × Nat)) :
    sumCounts (sortDesc l) = sumCounts l := by
  unfold sumCounts
  exact ((sortDesc_perm l).map (fun p => p.2)).sum_eq

theorem sumCounts_valueCounts (l : List String) : sumCounts (valueCounts l) = l.length := by
  rw [valueCounts, sumCounts_sortDesc]
  unfold sumCounts firstSeenCounts
  rw [List.map_map]
  exact sum_counts_firstSeen l

/-- Claim C1 counterexample: on the one-record collection whose sponsor is
absent, the `analyze_ictrp_sponsors_2020` aggregation (a bare
`value_counts()`, one of the two code paths the claim covers) returns no
buckets at all — the absent key is dropped, not grouped under Unknown, and
the counts sum to 0, not to the input length 1. -/
theorem claim_C1_counterexample :
    ictrp_sponsor_counts [{ sponsor := none, registration_date := none }] = []
    ∧ sumCounts (ictrp_sponsor_counts [{ sponsor := none, registration_date := none }]) ≠
        ([{ sponsor := none, registration_date := none }] : List TrialRecord).length := by
  exact ⟨by decide, by decide⟩

/-- Claim C1 (amended): the `clean_sponsor_data` aggregation fills absent
sponsors with the synthetic key Unknown before counting, so its bucket
counts always sum to the number of input records; the
`analyze_ictrp_sponsors_2020` aggregation instead drops records with an
absent sponsor, so its bucket counts sum to the number of records whose
sponsor is present. -/
theorem claim_C1 (records : List TrialRecord) :
    sumCounts (clean_sponsor_counts records) = records.length
    ∧ (∀ r : TrialRecord, r.sponsor = none → cleanSponsorKey r = "Unknown")
    ∧ sumCounts (ictrp_sponsor_counts records) =
        records.countP (fun r => r.sponsor.isSome) := by
  refine ⟨?_, ?_, ?_⟩
  · rw [clean_sponsor_counts, sumCounts_valueCounts, List.length_map]
  · intro r h
    simp [cleanSponsorKey, h]
  · rw [ictrp_sponsor_counts, sumCounts_valueCounts,
      List.length_filterMap_eq_countP]

/-- Claim C1 witness: on a three-record collection with one absent sponsor,
the clean aggregation sums to 3 (the absent record counted under Unknown)
while the ICTRP aggregation sums to 2. -/
theorem claim_C1_witness :
    sumCounts (clean_sponsor_counts
        [ { sponsor := none, registration_date := none }
        , { sponsor := some "A", registration_date := none }
        , { sponsor := some "A", registration_date := none } ]) = 3
    ∧ cleanSponsorKey { sponsor := none, registration_date := none } = "Unknown"
    ∧ sumCounts (ictrp_sponsor_counts
        [ { sponsor := none, registration_date := none }
        , { sponsor := some "A", registration_date := none }
        , { sponsor := some "A", registration_date := none } ]) = 2 := by
  refine ⟨(claim_C1 _).1.trans (by decide), (claim_C1 []).2.1 _ rfl,
    (claim_C1 _).2.2.trans (by decide)⟩

/-- Claim C4 counterexample: a two-record collection holding one undated
record; the minimum and the maximum present registration date are both 5,
yet filtering by the range [5, 5] drops the undated record, so the claimed
round-trip identity fails. -/
theorem claim_C4_counterexample :
    (presentDates [{ sponsor := some "A", registration_date := none },
        { sponsor := some "B", registration_date := some 5 }]).min? = some 5
    ∧ (presentDates [{ sponsor := some "A", registration_date := none },
        { sponsor := some "B", registration_date := some 5 }]).max? = some 5
    ∧ filter_by_date [{ sponsor := some "A", registration_date := none },
        { sponsor := some "B", registration_date := some 5 }] 5 5 ≠
      [{ sponsor := some "A", registration_date := none },
        { sponsor := some "B", registration_date := some 5 }] := by
  exact ⟨by decide, by decide, by decide⟩

/-- Claim C4 (amended): for every collection in which every record has a
present `registration_date`, filtering with the minimum and the maximum of
those dates as the range returns the original collection unchanged in
content and input order.  (If any record has an absent date it is dropped
by the filter, so the identity holds exactly for all-dated collections.) -/
theorem claim_C4 (records : List TrialRecord) (lo hi : Nat)
    (hall : ∀ r ∈ records, r.registration_date ≠ none)
    (hlo : (presentDates records).min? = some lo)
    (hhi : (presentDates records).max? = some hi) :
    filter_by_date records lo hi = records := by
  refine List.filter_eq_self.mpr ?_
  intro r hr
  rcases hd : r.registration_date with _ | d
  · exact absurd hd (hall r hr)
  · have hdm : d ∈ presentDates records := List.mem_filterMap.mpr ⟨r, hr, hd⟩
    have h1 := min?_le_of_mem hlo hdm
    have h2 := le_max?_of_mem hhi hdm
    simp [dateInRange, hd, h1, h2]

/-- Claim C4 witness: a fully dated two-record collection filtered by its
own min/max range is returned unchanged. -/
theorem claim_C4_witness :
    filter_by_date [{ sponsor := some "A", registration_date := some 20200115 },
        { sponsor := some "B", registration_date := some 20231231 }] 20200115 20231231 =
      [{ sponsor := some "A", registration_date := some 20200115 },
        { sponsor := some "B", registration_date := some 20231231 }] :=
  claim_C4 _ 20200115 20231231 (by decide) (by decide) (by decide)

/-- Claim C5: the (key, count) sequence produced by the `value_counts`
aggregation is sorted in descending order of count, and pairs with equal
counts appear in first-seen key order: the entries of any fixed count `c`
form exactly the subsequence they form in the first-appearance table
`firstSeenCounts`, and whenever two equal-count pairs appear in the result
in some order, the first key occurs earlier in the input column than the
second (`List.indexOf` is the index of a key's first occurrence). -/
theorem claim_C5 (l : List String) :
    (valueCounts l).Pairwise (fun a b => b.2 ≤ a.2)
    ∧ (∀ c : Nat, (valueCounts l).filter (fun p => decide (p.2 = c)) =
        (firstSeenCounts l).filter (fun p => decide (p.2 = c)))
    ∧ (∀ (k1 k2 : String) (c : Nat), k1 ≠ k2 →
        List.Sublist [(k1, c), (k2, c)] (valueCounts l) →
        l.indexOf k1 < l.indexOf k2) := by
  refine ⟨pairwise_sortDesc _, fun c => filter_sortDesc _ c, ?_⟩
  intro k1 k2 c hne hsub
  have h1 : List.Sublist [(k1, c), (k2, c)]
      ((valueCounts l).filter (fun p => decide (p.2 = c))) := by
    have := hsub.filter (fun p => decide (p.2 = c))
    simpa using this
  rw [valueCounts, filter_sortDesc] at h1
  have h2 : List.Sublist [(k1, c), (k2, c)] (firstSeenCounts l) :=
    h1.trans (List.filter_sublist _)
  rcases List.sublist_map_iff.mp h2 with ⟨ks, hks, hmap⟩
  rcases ks with _ | ⟨a, ks⟩
  · simp at hmap
  rcases ks with _ | ⟨b, ks⟩
  · simp at hmap
  rcases ks with _ | ⟨x, ks⟩
  · simp only [List.map_cons, List.map_nil, List.cons.injEq, and_true,
      Prod.mk.injEq] at hmap
    obtain ⟨⟨ha, -⟩, hb, -⟩ := hmap
    subst ha hb
    exact firstSeen_indexOf_lt hne hks
  · simp at hmap

/-- Claim C5 witness: on the column b, a, b, a both keys have count 2; the
aggregation lists (b, 2) before (a, 2) and b indeed first occurs earlier
than a. -/
theorem claim_C5_witness :
    valueCounts ["b", "a", "b", "a"] = [("b", 2), ("a", 2)]
    ∧ List.indexOf "b" ["b", "a", "b", "a"] < List.indexOf "a" ["b", "a", "b", "a"] := by
  refine ⟨by decide, ?_⟩
  refine (claim_C5 ["b", "a", "b", "a"]).2.2 "b" "a" 2 (by decide) ?_
  have h : valueCounts ["b", "a", "b", "a"] = [("b", 2), ("a", 2)] := by decide
  rw [h]

/-- Claim C8: in the paginated fetch loop, a failed page fetch is not
retried and does not fail the whole process — with an error at the current
token the loop body returns the accumulator as is, and a run whose token
chain serves some pages and then fails returns exactly the concatenation of
the studies of the previously successful pages. -/
theorem claim_C8 {α : Type} (f : Option String → Except String (FetchPage α)) :
    (∀ (fuel : Nat) (acc : List α) (tok : Option String) (e : String),
        f tok = Except.error e → fetch_loop f (fuel + 1) acc tok = acc)
    ∧ (∀ (pages : List (List α)) (fuel : Nat),
        FailsAfter f none pages → pages.length < fuel →
        fetch_all_ms_studies f fuel = pages.flatten) := by
  constructor
  · intro fuel acc tok e he
    simp [fetch_loop, he]
  · intro pages fuel h hf
    rw [fetch_all_ms_studies, fetch_loop_failsAfter f h fuel [] hf]
    simp

/-- Claim C8 witness: the concrete fetcher serves studies 1, 2 on the first
page and fails on the second; the loop returns exactly the first page's
studies, and an erroring call returns the accumulator unchanged. -/
theorem claim_C8_witness :
    fetch_loop fetchPageW 1 [5] (some "p2") = [5]
    ∧ fetch_all_ms_studies fetchPageW 2 = [1, 2] := by
  have htr : FailsAfter fetchPageW none [[1, 2]] :=
    FailsAfter.step none { studies := [1, 2], nextPageToken := some "p2" } "p2" []
      rfl rfl (by decide)
      (FailsAfter.fail (some "p2") "connection reset" rfl)
  refine ⟨(claim_C8 fetchPageW).1 0 [5] (some "p2") "connection reset" rfl, ?_⟩
  have h := (claim_C8 fetchPageW).2 [[1, 2]] 2 htr (by decide)
  simpa using h

end MSW
